import Mathlib

/-!
Verification of `bangmetric/dprime.py` (the d-prime sensitivity index).

The source computes over IEEE-754 doubles (numpy arrays).  We model a
double as an `RVal`: either NaN, one of the two signed infinities, or a
finite value carried as an exact real number.  Arrays are lists of
`RVal`; numpy's elementwise operations (`isfinite`, boolean-mask
indexing, `clip`, subtraction, division) are modelled by the
corresponding structural operations below, with IEEE conventions for
NaN and the infinities made explicit.  Python `assert` failures and
`raise ValueError(...)` are modelled by an `Except PyError` result.
-/

namespace Bangmetric

/-- Model of an IEEE-754 double: NaN, +inf, -inf, or a finite value
(carried as an exact real number; signed zeros are not distinguished). -/
inductive RVal where
  | NaN : RVal
  | PInf : RVal
  | NInf : RVal
  | val : ℝ → RVal

/-- `np.isfinite` on one element: true exactly on finite values. -/
def isFinite : RVal → Bool
  | .val _ => true
  | _ => false

/-- Whether the value is NaN. -/
def isNaN : RVal → Bool
  | .NaN => true
  | _ => false

/-- `np.isfinite(xs).all()` on an array. -/
def allFinite (l : List RVal) : Bool := l.all isFinite

/-- The finite entries of an array, as exact reals.  Under an
`allFinite` guard this is exactly the list of carried values. -/
def finiteParts (l : List RVal) : List ℝ :=
  l.filterMap fun v => match v with
    | .val x => some x
    | _ => none

/-- IEEE strict less-than as a Boolean: any comparison with NaN is
false; -inf is below every non-NaN value and +inf above. -/
noncomputable def rltb : RVal → RVal → Bool
  | .NaN, _ => false
  | _, .NaN => false
  | .NInf, .NInf => false
  | .NInf, _ => true
  | .PInf, _ => false
  | .val _, .PInf => true
  | .val _, .NInf => false
  | .val x, .val y => decide (x < y)

/-- IEEE less-or-equal as a Boolean: any comparison with NaN is false;
each infinity is less-or-equal to itself. -/
noncomputable def rleb : RVal → RVal → Bool
  | .NaN, _ => false
  | _, .NaN => false
  | .NInf, _ => true
  | _, .PInf => true
  | .PInf, _ => false
  | .val _, .NInf => false
  | .val x, .val y => decide (x ≤ y)

/-- IEEE negation. -/
noncomputable def rneg : RVal → RVal
  | .NaN => .NaN
  | .PInf => .NInf
  | .NInf => .PInf
  | .val x => .val (-x)

/-- IEEE subtraction (as used by `norm.ppf(TPR) - norm.ppf(FPR)`):
NaN propagates; inf - inf of equal signs is NaN. -/
noncomputable def rsub : RVal → RVal → RVal
  | .NaN, _ => .NaN
  | _, .NaN => .NaN
  | .PInf, .PInf => .NaN
  | .PInf, _ => .PInf
  | .NInf, .NInf => .NaN
  | .NInf, _ => .NInf
  | .val _, .PInf => .NInf
  | .val _, .NInf => .PInf
  | .val x, .val y => .val (x - y)

/-- IEEE division (as used by `num / div` and `TP / P`): NaN
propagates, inf/inf is NaN, finite/0 is a signed infinity by the sign
of the numerator and NaN for 0/0 (signed zeros are not modelled, so
finite/inf is plain 0 and the sign of b = 0 is not consulted). -/
noncomputable def rdiv : RVal → RVal → RVal
  | .NaN, _ => .NaN
  | _, .NaN => .NaN
  | .PInf, .PInf => .NaN
  | .PInf, .NInf => .NaN
  | .NInf, .PInf => .NaN
  | .NInf, .NInf => .NaN
  | .PInf, .val b => if b < 0 then .NInf else .PInf
  | .NInf, .val b => if b < 0 then .PInf else .NInf
  | .val _, .PInf => .val 0
  | .val _, .NInf => .val 0
  | .val a, .val b =>
      if b = 0 then (if 0 < a then .PInf else if a < 0 then .NInf else .NaN)
      else .val (a / b)

/-- `np.clip(x, lo, hi)` on one element, as numpy's comparison-based
clip: raise to `lo` if `x < lo`, then lower to `hi` if the result
exceeds `hi`.  NaN comparisons are false, so NaN passes through
unchanged; when `lo > hi` every non-NaN input comes out as `hi`. -/
noncomputable def npClip (x lo hi : RVal) : RVal :=
  let r := if rltb x lo then lo else x
  if rltb hi r then hi else r

/-- `xs.mean()`: arithmetic mean of a numpy array (exact-real model). -/
noncomputable def mean (l : List ℝ) : ℝ := l.sum / (l.length : ℝ)

/-- `xs.var(ddof=1)`: Bessel-corrected sample variance, dividing the
sum of squared deviations from the mean by n - 1. -/
noncomputable def svar (l : List ℝ) : ℝ :=
  (l.map fun x => (x - mean l) ^ 2).sum / ((l.length : ℝ) - 1)

/-- Modelled from the spec: `scipy.stats.norm.ppf`, the standard-normal
quantile function Φ⁻¹, is an external library routine; the spec fixes
its boundary convention (Φ⁻¹(0) = -inf, Φ⁻¹(1) = +inf, NaN off [0,1]
and on non-finite input) and its interior values are taken as an
arbitrary parameter `phi`. -/
noncomputable def ppf (phi : ℝ → ℝ) : RVal → RVal
  | .NaN => .NaN
  | .PInf => .NaN
  | .NInf => .NaN
  | .val p =>
      if p < 0 then .NaN
      else if p = 0 then .NInf
      else if p = 1 then .PInf
      else if 1 < p then .NaN
      else .val (phi p)

/-- A Python exception surfaced by `dprime`: a failed `assert`, or a
`raise ValueError(msg)`. -/
inductive PyError where
  | assertionError : PyError
  | valueError : String → PyError
deriving DecidableEq

/-- The value `dprime` returns: a scalar (sample/binary modes) or an
array of per-grouping d-primes (rate/confusionmat modes). -/
inductive DpResult where
  | scalar : RVal → DpResult
  | array : List RVal → DpResult

/-- The elements of a result, for elementwise statements. -/
def resultElems : DpResult → List RVal
  | .scalar v => [v]
  | .array vs => vs

/-- Binary-mode positive partition (`pos = y_pred[y_true > 0]`):
the predictions at positions whose label is strictly positive. -/
noncomputable def posPart (ytrue ypred : List RVal) : List RVal :=
  ((ytrue.zip ypred).filter fun p => rltb (.val 0) p.1).map Prod.snd

/-- Binary-mode negative partition (`neg = y_pred[~(y_true > 0)]`):
the predictions at the remaining positions (zero or negative labels). -/
noncomputable def negPart (ytrue ypred : List RVal) : List RVal :=
  ((ytrue.zip ypred).filter fun p => !rltb (.val 0) p.1).map Prod.snd

/-- The sample-family estimator shared by `sample` and `binary` modes
(lines 136-155 of the source): assert both sets entirely finite, raise
`ValueError` if either set has at most one element, then return
(mean(pos) - mean(neg)) / sqrt((var(pos, ddof=1) + var(neg, ddof=1)) / 2)
with IEEE division. -/
noncomputable def sampleDprime (pos neg : List RVal) : Except PyError RVal :=
  if !allFinite pos then .error .assertionError
  else if !allFinite neg then .error .assertionError
  else if pos.length ≤ 1 then
    .error (.valueError "Not enough positive samplesto estimate the variance")
  else if neg.length ≤ 1 then
    .error (.valueError "Not enough negative samplesto estimate the variance")
  else
    let posR := finiteParts pos
    let negR := finiteParts neg
    let num := mean posR - mean negR
    let div := Real.sqrt ((svar posR + svar negR) / 2)
    .ok (rdiv (.val num) (.val div))

/-- The rate-family estimator shared by `rate` and `confusionmat`
modes (line 158 of the source): elementwise Φ⁻¹(TPR) - Φ⁻¹(FPR). -/
noncomputable def rateDprime (phi : ℝ → ℝ) (TPR FPR : List RVal) : List RVal :=
  (TPR.zip FPR).map fun p => rsub (ppf phi p.1) (ppf phi p.2)

/-- The default mode tag of the source (`DEFAULT_DPRIME_MODE`). -/
def DEFAULT_DPRIME_MODE : String := "binary"

/-- `dprime` before the final clipping step (source lines 98-158).
`phi` is the interior of the external standard-normal quantile (see
`ppf`); `cms` is the external collaborator `confusion_matrix_stats`
(repository code outside the verified core — modelled from the spec as
a black box returning per-grouping (P, N, TP, FP); only the P, N, TP,
FP outputs are consumed, via IEEE elementwise division). -/
noncomputable def dprimeRaw (phi : ℝ → ℝ)
    (cms : List RVal → List RVal × List RVal × List RVal × List RVal)
    (A B : List RVal) (mode : String) : Except PyError DpResult :=
  if mode = "sample" then
    (sampleDprime A B).map DpResult.scalar
  else if mode = "binary" then
    if A.length ≠ B.length then .error .assertionError
    else if !allFinite A then .error .assertionError
    else (sampleDprime (posPart A B) (negPart A B)).map DpResult.scalar
  else if mode = "rate" then
    if A.length ≠ B.length then .error .assertionError
    else .ok (.array (rateDprime phi A B))
  else if mode = "confusionmat" then
    let s := cms A
    let TPR := (s.2.2.1.zip s.1).map fun p => rdiv p.1 p.2
    let FPR := (s.2.2.2.zip s.2.1).map fun p => rdiv p.1 p.2
    .ok (.array (rateDprime phi TPR FPR))
  else .error (.valueError "Invalid mode")

/-- The final clipping step (`np.clip(dp, min_value, max_value)`),
applied elementwise to the computed result. -/
noncomputable def clipResult (lo hi : RVal) : DpResult → DpResult
  | .scalar v => .scalar (npClip v lo hi)
  | .array vs => .array (vs.map fun v => npClip v lo hi)

/-- `dprime(A, B, mode, max_value, min_value)`: mode dispatch and
estimation (`dprimeRaw`), then clipping into [min_value, max_value]. -/
noncomputable def dprime (phi : ℝ → ℝ)
    (cms : List RVal → List RVal × List RVal × List RVal × List RVal)
    (A B : List RVal) (mode : String)
    (max_value min_value : RVal) : Except PyError DpResult :=
  (dprimeRaw phi cms A B mode).map (clipResult min_value max_value)

/-- Elementwise IEEE negation of a result (for the antisymmetry law). -/
noncomputable def negResult : DpResult → DpResult
  | .scalar v => .scalar (rneg v)
  | .array vs => .array (vs.map rneg)

/-- A trivial interior quantile, used to instantiate witnesses. -/
def phi0 : ℝ → ℝ := fun _ => 0

/-- A trivial confusion-matrix collaborator, used in witnesses. -/
def cms0 : List RVal → List RVal × List RVal × List RVal × List RVal :=
  fun _ => ([], [], [], [])

/-! Helper lemmas about the IEEE model. -/

theorem bool_eq_false {b : Bool} (h : ¬ b = true) : b = false := by
  cases b <;> simp_all

theorem rltb_nan_left (v : RVal) : rltb .NaN v = false := by cases v <;> rfl

theorem rltb_nan_right (v : RVal) : rltb v .NaN = false := by cases v <;> rfl

theorem rltb_nInf_right (v : RVal) : rltb v .NInf = false := by cases v <;> rfl

theorem rltb_pInf_left (v : RVal) : rltb .PInf v = false := by cases v <;> rfl

theorem not_nan_of_rleb (a b : RVal) (h : rleb a b = true) :
    isNaN a = false ∧ isNaN b = false := by
  cases a <;> cases b <;> simp_all [isNaN, rleb]

theorem not_nan_of_rltb (a b : RVal) (h : rltb a b = true) :
    isNaN a = false ∧ isNaN b = false := by
  cases a <;> cases b <;> simp_all [isNaN, rltb]

theorem rleb_refl_of (a : RVal) (h : isNaN a = false) : rleb a a = true := by
  cases a <;> simp_all [isNaN, rleb]

theorem rleb_of_not_rltb (a b : RVal) (ha : isNaN a = false) (hb : isNaN b = false)
    (h : rltb a b = false) : rleb b a = true := by
  cases a <;> cases b <;> simp_all [isNaN, rltb, rleb, not_lt]

theorem rltb_trans_rleb (a b c : RVal) (h1 : rltb a b = true) (h2 : rleb b c = true) :
    rltb a c = true := by
  cases a <;> cases b <;> cases c <;> simp_all [rltb, rleb]
  linarith

theorem npClip_default (v : RVal) : npClip v .NInf .PInf = v := by
  simp [npClip, rltb_nInf_right, rltb_pInf_left]

theorem npClip_nan (lo hi : RVal) : npClip .NaN lo hi = .NaN := by
  simp [npClip, rltb_nan_left, rltb_nan_right]

theorem rsub_nan_left (w : RVal) : rsub .NaN w = .NaN := by cases w <;> rfl

theorem rsub_nan_right (v : RVal) : rsub v .NaN = .NaN := by cases v <;> rfl

theorem clipResult_default (r : DpResult) : clipResult .NInf .PInf r = r := by
  cases r <;> simp [clipResult, npClip_default]

theorem resultElems_clip (lo hi : RVal) (r : DpResult) :
    resultElems (clipResult lo hi r) = (resultElems r).map fun v => npClip v lo hi := by
  cases r <;> rfl

theorem npClip_between (x lo hi : RVal) (h : rleb lo hi = true)
    (hx : isNaN (npClip x lo hi) = false) :
    rleb lo (npClip x lo hi) = true ∧ rleb (npClip x lo hi) hi = true := by
  have hlo := (not_nan_of_rleb _ _ h).1
  have hhi := (not_nan_of_rleb _ _ h).2
  simp only [npClip] at hx ⊢
  split_ifs at hx ⊢ with h1 h2 h3
  · exact ⟨h, rleb_refl_of _ hhi⟩
  · exact ⟨rleb_refl_of _ hlo, h⟩
  · exact ⟨h, rleb_refl_of _ hhi⟩
  · exact ⟨rleb_of_not_rltb x lo hx hlo (bool_eq_false h1),
      rleb_of_not_rltb hi x hhi hx (bool_eq_false h3)⟩

theorem npClip_crossed (x lo hi : RVal) (h : rltb hi lo = true)
    (hx : isNaN (npClip x lo hi) = false) : npClip x lo hi = hi := by
  have hlo := (not_nan_of_rltb _ _ h).2
  have hhi := (not_nan_of_rltb _ _ h).1
  simp only [npClip] at hx ⊢
  split_ifs at hx ⊢ with h1 h2
  · rfl
  · rfl
  · exact absurd (rltb_trans_rleb hi lo x h
      (rleb_of_not_rltb x lo hx hlo (bool_eq_false h1))) h2

theorem allFinite_map_val (l : List ℝ) : allFinite (l.map RVal.val) = true := by
  induction l with
  | nil => rfl
  | cons a t ih => simp_all [allFinite, isFinite]

theorem finiteParts_map_val (l : List ℝ) : finiteParts (l.map RVal.val) = l := by
  induction l with
  | nil => rfl
  | cons a t ih => simp_all [finiteParts]

theorem except_map_ok {α β γ : Type} (f : β → γ) (e : Except α β) (r : γ)
    (h : e.map f = .ok r) : ∃ b, e = .ok b ∧ r = f b := by
  cases e with
  | error a => simp [Except.map] at h
  | ok b => exact ⟨b, rfl, by simpa [Except.map] using h.symm⟩

theorem sampleDprime_ok (pos neg : List RVal)
    (hfp : allFinite pos = true) (hfn : allFinite neg = true)
    (hp : 1 < pos.length) (hn : 1 < neg.length) :
    sampleDprime pos neg =
      .ok (rdiv (.val (mean (finiteParts pos) - mean (finiteParts neg)))
        (.val (Real.sqrt ((svar (finiteParts pos) + svar (finiteParts neg)) / 2)))) := by
  have h1 : ¬ pos.length ≤ 1 := by omega
  have h2 : ¬ neg.length ≤ 1 := by omega
  simp [sampleDprime, hfp, hfn, h1, h2]

theorem sampleDprime_pos_small (pos neg : List RVal)
    (hfp : allFinite pos = true) (hfn : allFinite neg = true)
    (hp : pos.length ≤ 1) :
    sampleDprime pos neg =
      .error (.valueError "Not enough positive samplesto estimate the variance") := by
  simp [sampleDprime, hfp, hfn, hp]

theorem sampleDprime_neg_small (pos neg : List RVal)
    (hfp : allFinite pos = true) (hfn : allFinite neg = true)
    (hp : ¬ pos.length ≤ 1) (hn : neg.length ≤ 1) :
    sampleDprime pos neg =
      .error (.valueError "Not enough negative samplesto estimate the variance") := by
  simp [sampleDprime, hfp, hfn, hp, hn]

theorem allFinite_filter_snd (f : RVal × RVal → Bool) (A B : List RVal)
    (hB : allFinite B = true) :
    allFinite (((A.zip B).filter f).map Prod.snd) = true := by
  rw [allFinite, List.all_eq_true] at *
  intro v hv
  obtain ⟨p, hp, rfl⟩ := List.mem_map.mp hv
  exact hB _ (List.of_mem_zip (List.mem_of_mem_filter hp)).2

theorem allFinite_posPart (A B : List RVal) (hB : allFinite B = true) :
    allFinite (posPart A B) = true := allFinite_filter_snd _ A B hB

theorem allFinite_negPart (A B : List RVal) (hB : allFinite B = true) :
    allFinite (negPart A B) = true := allFinite_filter_snd _ A B hB

theorem rdiv_neg_num (a d : ℝ) :
    rdiv (.val (-a)) (.val d) = rneg (rdiv (.val a) (.val d)) := by
  rcases eq_or_ne d 0 with rfl | hd
  · rcases lt_trichotomy a 0 with h | rfl | h
    · have h1 : (0:ℝ) < -a := by linarith
      have h2 : ¬ (0:ℝ) < a := by linarith
      simp [rdiv, rneg, h, h1, h2]
    · simp [rdiv, rneg]
    · have h1 : ¬ (0:ℝ) < -a := by linarith
      have h2 : -a < 0 := by linarith
      have h3 : ¬ a < 0 := by linarith
      simp [rdiv, rneg, h, h1, h2, h3]
  · simp [rdiv, rneg, hd, neg_div]

theorem dprimeRaw_sample (phi : ℝ → ℝ)
    (cms : List RVal → List RVal × List RVal × List RVal × List RVal)
    (A B : List RVal) :
    dprimeRaw phi cms A B "sample" = (sampleDprime A B).map DpResult.scalar := rfl

theorem dprimeRaw_binary (phi : ℝ → ℝ)
    (cms : List RVal → List RVal × List RVal × List RVal × List RVal)
    (A B : List RVal) :
    dprimeRaw phi cms A B "binary" =
      (if A.length ≠ B.length then .error .assertionError
       else if !allFinite A then .error .assertionError
       else (sampleDprime (posPart A B) (negPart A B)).map DpResult.scalar) := rfl

theorem dprimeRaw_rate (phi : ℝ → ℝ)
    (cms : List RVal → List RVal × List RVal × List RVal × List RVal)
    (A B : List RVal) :
    dprimeRaw phi cms A B "rate" =
      (if A.length ≠ B.length then .error .assertionError
       else .ok (.array (rateDprime phi A B))) := rfl

/-! The claims. -/

/-- C1: For every pair of finite sample sets `pos`, `neg` each with more
than one element, `dprime(pos, neg, mode='sample')` with default bounds
returns (mean(pos) - mean(neg)) / sqrt((var(pos, ddof=1) +
var(neg, ddof=1)) / 2). -/
theorem dprime_sample_formula (phi : ℝ → ℝ)
    (cms : List RVal → List RVal × List RVal × List RVal × List RVal)
    (pos neg : List ℝ) (hp : 1 < pos.length) (hn : 1 < neg.length) :
    dprime phi cms (pos.map RVal.val) (neg.map RVal.val) "sample" .PInf .NInf =
      .ok (.scalar (rdiv (.val (mean pos - mean neg))
        (.val (Real.sqrt ((svar pos + svar neg) / 2))))) := by
  unfold dprime
  rw [dprimeRaw_sample, sampleDprime_ok _ _ (allFinite_map_val pos) (allFinite_map_val neg)
      (by simpa using hp) (by simpa using hn)]
  simp [Except.map, clipResult_default, finiteParts_map_val]

/-- C1 witness: pos = [0, 4], neg = [0, 0]; the formula evaluates to
(2 - 0) / sqrt((8 + 0) / 2) = 1. -/
theorem dprime_sample_formula_witness :
    dprime phi0 cms0 ([(0:ℝ), 4].map RVal.val) ([(0:ℝ), 0].map RVal.val) "sample"
        .PInf .NInf =
      .ok (.scalar (rdiv (.val (mean [(0:ℝ), 4] - mean [(0:ℝ), 0]))
        (.val (Real.sqrt ((svar [(0:ℝ), 4] + svar [(0:ℝ), 0]) / 2))))) ∧
    rdiv (.val (mean [(0:ℝ), 4] - mean [(0:ℝ), 0]))
        (.val (Real.sqrt ((svar [(0:ℝ), 4] + svar [(0:ℝ), 0]) / 2))) = .val 1 := by
  constructor
  · exact dprime_sample_formula phi0 cms0 [0, 4] [0, 0] (by decide) (by decide)
  · have hm1 : mean [(0:ℝ), 4] = 2 := by norm_num [mean]
    have hm2 : mean [(0:ℝ), 0] = 0 := by norm_num [mean]
    have hv1 : svar [(0:ℝ), 4] = 8 := by norm_num [svar, hm1]
    have hv2 : svar [(0:ℝ), 0] = 0 := by norm_num [svar, hm2]
    rw [hm1, hm2, hv1, hv2]
    have hs : Real.sqrt ((8 + 0) / 2) = 2 := by
      rw [show ((8:ℝ) + 0) / 2 = 2 ^ 2 by norm_num, Real.sqrt_sq (by norm_num)]
    rw [hs]
    norm_num [rdiv]

/-- C2: Binary mode is sample mode after partitioning by label sign:
with equal-length inputs and finite labels, `dprime(A, B, 'binary')`
equals `dprime(pos, neg, 'sample')` where pos collects predictions at
labels > 0 and neg the rest. -/
theorem dprime_binary_eq_sample (phi : ℝ → ℝ)
    (cms : List RVal → List RVal × List RVal × List RVal × List RVal)
    (A B : List RVal) (maxv minv : RVal)
    (hlen : A.length = B.length) (hfin : allFinite A = true) :
    dprime phi cms A B "binary" maxv minv =
      dprime phi cms (posPart A B) (negPart A B) "sample" maxv minv := by
  unfold dprime
  rw [dprimeRaw_binary, dprimeRaw_sample]
  simp [hlen, hfin]

/-- C2 witness: labels [1,1,0,0] and predictions [2,3,0,1] partition
into pos = [2,3], neg = [0,1], and the two mode calls agree. -/
theorem dprime_binary_eq_sample_witness :
    posPart [RVal.val 1, .val 1, .val 0, .val 0]
        [RVal.val 2, .val 3, .val 0, .val 1] = [RVal.val 2, .val 3] ∧
    negPart [RVal.val 1, .val 1, .val 0, .val 0]
        [RVal.val 2, .val 3, .val 0, .val 1] = [RVal.val 0, .val 1] ∧
    dprime phi0 cms0 [RVal.val 1, .val 1, .val 0, .val 0]
        [RVal.val 2, .val 3, .val 0, .val 1] "binary" .PInf .NInf =
      dprime phi0 cms0
        (posPart [RVal.val 1, .val 1, .val 0, .val 0]
          [RVal.val 2, .val 3, .val 0, .val 1])
        (negPart [RVal.val 1, .val 1, .val 0, .val 0]
          [RVal.val 2, .val 3, .val 0, .val 1]) "sample" .PInf .NInf := by
  refine ⟨?_, ?_, dprime_binary_eq_sample phi0 cms0 _ _ _ _ rfl rfl⟩
  · norm_num [posPart, rltb, List.filter]
  · norm_num [negPart, rltb, List.filter]

/-- C9: In a valid binary-mode call each prediction goes to exactly one
of the two partitions (labels > 0 to pos, all others to neg), so the
partition sizes sum to the common input length. -/
theorem binary_partition_sizes (A B : List RVal) (h : A.length = B.length) :
    (posPart A B).length + (negPart A B).length = A.length := by
  have hperm := (List.filter_append_perm
    (fun p => rltb (.val 0) p.1) (A.zip B)).length_eq
  simp only [List.length_append] at hperm
  simp only [posPart, negPart, List.length_map]
  rw [hperm, List.length_zip, h, min_self]

/-- C9 witness: labels [1, -1, 0] with predictions [7, 8, 9]: the two
partitions have sizes summing to 3. -/
theorem binary_partition_sizes_witness :
    (posPart [RVal.val 1, .val (-1), .val 0] [RVal.val 7, .val 8, .val 9]).length +
      (negPart [RVal.val 1, .val (-1), .val 0] [RVal.val 7, .val 8, .val 9]).length = 3 :=
  binary_partition_sizes _ _ rfl

/-- C3 counterexample: a zero-variance sample-mode call computes NaN,
which survives clipping into the finite bounds [-1, 1]; by the IEEE
convention NaN satisfies no comparison, so the returned value does not
lie in the closed interval [min_value, max_value]. -/
theorem dprime_clip_nan_counterexample :
    dprime phi0 cms0 [RVal.val 0, .val 0] [RVal.val 0, .val 0] "sample"
        (.val 1) (.val (-1)) = .ok (.scalar .NaN) ∧
    rleb (.val (-1)) .NaN = false ∧ rleb .NaN (.val 1) = false := by
  refine ⟨?_, rfl, rfl⟩
  have hm : mean [(0:ℝ), 0] = 0 := by norm_num [mean]
  have hv : svar [(0:ℝ), 0] = 0 := by norm_num [svar, hm]
  have hfp : finiteParts [RVal.val 0, .val 0] = [(0:ℝ), 0] := rfl
  unfold dprime
  rw [dprimeRaw_sample, sampleDprime_ok [RVal.val 0, .val 0] [RVal.val 0, .val 0]
    rfl rfl (by decide) (by decide), hfp, hm, hv]
  norm_num [Except.map, clipResult, rdiv, Real.sqrt_zero, npClip_nan]

/-- C3 (amended): when min_value ≤ max_value, every non-NaN element of a
returned result lies in [min_value, max_value]; NaN elements pass
through clipping unchanged (and lie in no interval); and with the
default bounds -inf, +inf the returned value is exactly the unclipped
formula result, NaN included. -/
theorem dprime_clip_bounds (phi : ℝ → ℝ)
    (cms : List RVal → List RVal × List RVal × List RVal × List RVal)
    (A B : List RVal) (mode : String) (maxv minv : RVal) (r : DpResult)
    (hb : rleb minv maxv = true)
    (hok : dprime phi cms A B mode maxv minv = .ok r) :
    (∀ v ∈ resultElems r, isNaN v = false →
      rleb minv v = true ∧ rleb v maxv = true) ∧
    dprime phi cms A B mode .PInf .NInf = dprimeRaw phi cms A B mode := by
  constructor
  · obtain ⟨r0, he, rfl⟩ := except_map_ok _ _ _ hok
    intro v hv hnan
    rw [resultElems_clip] at hv
    obtain ⟨w, hw, rfl⟩ := List.mem_map.mp hv
    exact npClip_between w minv maxv hb hnan
  · cases hRaw : dprimeRaw phi cms A B mode with
    | error e => simp [dprime, hRaw, Except.map]
    | ok r0 => simp [dprime, hRaw, Except.map, clipResult_default]

/-- C3 witness: pos = neg = [1, 3] gives d-prime 0, clipped into
[0, 1]: the returned value 0 satisfies both bound comparisons. -/
theorem dprime_clip_bounds_witness :
    rleb (RVal.val 0) (.val 1) = true ∧
    (rleb (RVal.val 0) (RVal.val 0) = true ∧ rleb (RVal.val 0) (.val 1) = true) := by
  have hb : rleb (RVal.val 0) (.val 1) = true := by
    norm_num [rleb]
  have hm : mean [(1:ℝ), 3] = 2 := by norm_num [mean]
  have hv : svar [(1:ℝ), 3] = 2 := by norm_num [svar, hm]
  have hs : Real.sqrt ((2 + 2) / 2) ≠ 0 := by
    rw [Real.sqrt_ne_zero']
    norm_num
  have hok : dprime phi0 cms0 [RVal.val 1, .val 3] [RVal.val 1, .val 3] "sample"
      (.val 1) (.val 0) = .ok (.scalar (.val 0)) := by
    unfold dprime
    rw [dprimeRaw_sample, sampleDprime_ok [RVal.val 1, .val 3] [RVal.val 1, .val 3]
      rfl rfl (by decide) (by decide),
      show finiteParts [RVal.val 1, .val 3] = [(1:ℝ), 3] from rfl, hm, hv]
    norm_num [Except.map, clipResult, rdiv, hs, npClip, rltb]
  exact ⟨hb, (dprime_clip_bounds phi0 cms0 _ _ _ _ _ _ hb hok).1 (.val 0)
    (by simp [resultElems]) rfl⟩

/-- C4 counterexample: the invalid-mode failure message is the constant
"Invalid mode": for the tag "bogus" the raised message does not contain
the tag, refuting "message names the invalid mode tag". -/
theorem dprime_invalid_mode_counterexample :
    dprime phi0 cms0 [] [] "bogus" .PInf .NInf =
      .error (.valueError "Invalid mode") ∧
    ¬ "bogus".data <:+: "Invalid mode".data := by
  exact ⟨rfl, by decide⟩

/-- C4 (amended): for every mode tag outside {binary, sample, rate,
confusionmat}, `dprime` fails with the usage error
ValueError("Invalid mode") — a constant message that identifies the
failure kind but does not include the offending tag — and no
computation is performed on A or B before the failure. -/
theorem dprime_invalid_mode (phi : ℝ → ℝ)
    (cms : List RVal → List RVal × List RVal × List RVal × List RVal)
    (A B : List RVal) (mode : String) (maxv minv : RVal)
    (h : mode ∉ (["binary", "sample", "rate", "confusionmat"] : List String)) :
    dprime phi cms A B mode maxv minv = .error (.valueError "Invalid mode") := by
  simp only [List.mem_cons, List.not_mem_nil, or_false, not_or] at h
  obtain ⟨h1, h2, h3, h4⟩ := h
  unfold dprime dprimeRaw
  rw [if_neg h2, if_neg h1, if_neg h3, if_neg h4]
  rfl

/-- C4 witness: the tag "bogus" is outside the recognized set and the
call fails with ValueError("Invalid mode") even on a NaN input. -/
theorem dprime_invalid_mode_witness :
    ("bogus" : String) ∉ (["binary", "sample", "rate", "confusionmat"] : List String) ∧
    dprime phi0 cms0 [.NaN] [] "bogus" .PInf .NInf =
      .error (.valueError "Invalid mode") :=
  ⟨by decide, dprime_invalid_mode phi0 cms0 [.NaN] [] "bogus" .PInf .NInf (by decide)⟩

/-- C5 counterexample: a NaN true-positive rate is not rejected in rate
mode: the call returns ok with a NaN entry instead of raising. -/
theorem dprime_rate_nan_counterexample :
    dprime phi0 cms0 [.NaN] [RVal.val (1/2)] "rate" .PInf .NInf =
      .ok (.array [.NaN]) := by
  unfold dprime
  rw [dprimeRaw_rate, if_neg (fun hne => hne rfl)]
  simp [rateDprime, ppf, rsub_nan_left, Except.map, clipResult, npClip_nan]

/-- C5 (amended): rate mode does not reject non-finite rates: with
equal-length arrays it returns ok — the elementwise quantile
difference — and the quantile of any non-finite value is NaN, so
non-finite entries propagate to NaN entries of the result rather than
raising an error (finiteness is asserted only in sample/binary modes). -/
theorem dprime_rate_nonfinite_propagates (phi : ℝ → ℝ)
    (cms : List RVal → List RVal × List RVal × List RVal × List RVal)
    (A B : List RVal) (hlen : A.length = B.length) :
    dprime phi cms A B "rate" .PInf .NInf = .ok (.array (rateDprime phi A B)) ∧
    ∀ v w : RVal, isFinite v = false ∨ isFinite w = false →
      rsub (ppf phi v) (ppf phi w) = .NaN := by
  constructor
  · unfold dprime
    rw [dprimeRaw_rate, if_neg (fun hne => hne hlen)]
    simp [Except.map, clipResult_default]
  · rintro v w (hv | hw)
    · cases v <;> simp_all [isFinite, ppf, rsub_nan_left]
    · cases w <;> simp_all [isFinite, ppf, rsub_nan_right]

/-- C5 witness: an infinite rate entry yields a NaN result entry and
the call still returns ok. -/
theorem dprime_rate_nonfinite_propagates_witness :
    dprime phi0 cms0 [.PInf] [RVal.val 1] "rate" .PInf .NInf =
      .ok (.array (rateDprime phi0 [.PInf] [RVal.val 1])) ∧
    rsub (ppf phi0 .PInf) (ppf phi0 (RVal.val 1)) = .NaN := by
  have h := dprime_rate_nonfinite_propagates phi0 cms0 [.PInf] [RVal.val 1] rfl
  exact ⟨h.1, h.2 _ _ (Or.inl rfl)⟩

/-- C6: With entirely finite samples, sample mode raises
ValueError("Not enough positive samples...") whenever the positive set
has at most one element, and the symmetric negative message when the
positive set is large enough but the negative set has at most one
element; binary mode does the same on the label-sign partition.  The
error is returned in place of any computed statistic. -/
theorem dprime_insufficient_samples (phi : ℝ → ℝ)
    (cms : List RVal → List RVal × List RVal × List RVal × List RVal)
    (pos neg : List RVal) (maxv minv : RVal)
    (hfp : allFinite pos = true) (hfn : allFinite neg = true) :
    (pos.length ≤ 1 →
      dprime phi cms pos neg "sample" maxv minv =
        .error (.valueError "Not enough positive samplesto estimate the variance")) ∧
    (1 < pos.length → neg.length ≤ 1 →
      dprime phi cms pos neg "sample" maxv minv =
        .error (.valueError "Not enough negative samplesto estimate the variance")) ∧
    (∀ A B : List RVal, A.length = B.length → allFinite A = true →
      allFinite B = true → (posPart A B).length ≤ 1 →
      dprime phi cms A B "binary" maxv minv =
        .error (.valueError "Not enough positive samplesto estimate the variance")) ∧
    (∀ A B : List RVal, A.length = B.length → allFinite A = true →
      allFinite B = true → 1 < (posPart A B).length → (negPart A B).length ≤ 1 →
      dprime phi cms A B "binary" maxv minv =
        .error (.valueError "Not enough negative samplesto estimate the variance")) := by
  refine ⟨?_, ?_, ?_, ?_⟩
  · intro hp
    unfold dprime
    rw [dprimeRaw_sample, sampleDprime_pos_small pos neg hfp hfn hp]
    rfl
  · intro hp hn
    unfold dprime
    rw [dprimeRaw_sample, sampleDprime_neg_small pos neg hfp hfn (by omega) hn]
    rfl
  · intro A B hlen hfA hfB hcount
    unfold dprime
    rw [dprimeRaw_binary, if_neg (fun hne => hne hlen), hfA,
      sampleDprime_pos_small (posPart A B) (negPart A B)
        (allFinite_posPart A B hfB) (allFinite_negPart A B hfB) hcount]
    simp [Except.map]
  · intro A B hlen hfA hfB hcp hcn
    unfold dprime
    rw [dprimeRaw_binary, if_neg (fun hne => hne hlen), hfA,
      sampleDprime_neg_small (posPart A B) (negPart A B)
        (allFinite_posPart A B hfB) (allFinite_negPart A B hfB) (by omega) hcn]
    simp [Except.map]

/-- C6 witness: dprime([5.0], [1.0, 2.0], mode='sample') raises the
insufficient-positive-samples error. -/
theorem dprime_insufficient_samples_witness :
    dprime phi0 cms0 [RVal.val 5] [RVal.val 1, .val 2] "sample" .PInf .NInf =
      .error (.valueError "Not enough positive samplesto estimate the variance") :=
  (dprime_insufficient_samples phi0 cms0 [RVal.val 5] [RVal.val 1, .val 2]
    .PInf .NInf rfl rfl).1 (by decide)

/-- C7: In rate mode a TPR of exactly 1 maps to +inf and an FPR of
exactly 0 maps to -inf under the standard-normal quantile convention,
so dprime(TPR=1, FPR=0, mode='rate') returns +inf with the default
max_value and returns max_value when a finite max_value is supplied. -/
theorem dprime_rate_boundary (phi : ℝ → ℝ)
    (cms : List RVal → List RVal × List RVal × List RVal × List RVal) (m : ℝ) :
    ppf phi (.val 1) = .PInf ∧ ppf phi (.val 0) = .NInf ∧
    dprime phi cms [RVal.val 1] [RVal.val 0] "rate" .PInf .NInf =
      .ok (.array [.PInf]) ∧
    dprime phi cms [RVal.val 1] [RVal.val 0] "rate" (.val m) .NInf =
      .ok (.array [.val m]) := by
  have h1 : ppf phi (.val 1) = .PInf := by norm_num [ppf]
  have h0 : ppf phi (.val 0) = .NInf := by norm_num [ppf]
  refine ⟨h1, h0, ?_, ?_⟩
  · unfold dprime
    rw [dprimeRaw_rate, if_neg (fun hne => hne rfl)]
    simp [rateDprime, h1, h0, rsub, Except.map, clipResult_default]
  · unfold dprime
    rw [dprimeRaw_rate, if_neg (fun hne => hne rfl)]
    simp [rateDprime, h1, h0, rsub, Except.map, clipResult, npClip,
      rltb_pInf_left, rltb]

/-- C8: Antisymmetry of sample mode: with default bounds, swapping the
positive and negative sample sets negates the result (IEEE negation:
infinities swap sign, NaN stays NaN). -/
theorem dprime_sample_antisymm (phi : ℝ → ℝ)
    (cms : List RVal → List RVal × List RVal × List RVal × List RVal)
    (pos neg : List RVal)
    (hfp : allFinite pos = true) (hfn : allFinite neg = true)
    (hp : 1 < pos.length) (hn : 1 < neg.length) :
    dprime phi cms pos neg "sample" .PInf .NInf =
      (dprime phi cms neg pos "sample" .PInf .NInf).map negResult := by
  unfold dprime
  rw [dprimeRaw_sample, dprimeRaw_sample,
    sampleDprime_ok pos neg hfp hfn hp hn, sampleDprime_ok neg pos hfn hfp hn hp]
  simp only [Except.map, clipResult_default, negResult]
  rw [show mean (finiteParts pos) - mean (finiteParts neg) =
      -(mean (finiteParts neg) - mean (finiteParts pos)) by ring,
    rdiv_neg_num, add_comm (svar (finiteParts pos))]

/-- C8 witness: pos = [1, 2], neg = [3, 5]. -/
theorem dprime_sample_antisymm_witness :
    dprime phi0 cms0 [RVal.val 1, .val 2] [RVal.val 3, .val 5] "sample" .PInf .NInf =
      (dprime phi0 cms0 [RVal.val 3, .val 5] [RVal.val 1, .val 2] "sample"
        .PInf .NInf).map negResult :=
  dprime_sample_antisymm phi0 cms0 _ _ rfl rfl (by decide) (by decide)

/-- C10 counterexample: with crossed bounds min = 5 > max = 1, a
zero-variance call computes NaN and returns NaN, not max_value, so not
every returned value equals max_value. -/
theorem dprime_crossed_bounds_counterexample :
    dprime phi0 cms0 [RVal.val 2, .val 2] [RVal.val 2, .val 2] "sample"
        (.val 1) (.val 5) = .ok (.scalar .NaN) ∧ RVal.NaN ≠ RVal.val 1 := by
  constructor
  · have hm : mean [(2:ℝ), 2] = 2 := by norm_num [mean]
    have hv : svar [(2:ℝ), 2] = 0 := by norm_num [svar, hm]
    have hfp : finiteParts [RVal.val 2, .val 2] = [(2:ℝ), 2] := rfl
    unfold dprime
    rw [dprimeRaw_sample, sampleDprime_ok [RVal.val 2, .val 2] [RVal.val 2, .val 2]
      rfl rfl (by decide) (by decide), hfp, hm, hv]
    norm_num [Except.map, clipResult, rdiv, Real.sqrt_zero, npClip_nan]
  · simp

/-- C10 (amended): crossed bounds are not validated and cause no
failure: when min_value > max_value every returned non-NaN element
equals max_value (the upper bound is applied after the lower bound); a
NaN d-prime is returned as NaN even then. -/
theorem dprime_crossed_bounds (phi : ℝ → ℝ)
    (cms : List RVal → List RVal × List RVal × List RVal × List RVal)
    (A B : List RVal) (mode : String) (maxv minv : RVal) (r : DpResult)
    (hcross : rltb maxv minv = true)
    (hok : dprime phi cms A B mode maxv minv = .ok r) :
    ∀ v ∈ resultElems r, isNaN v = false → v = maxv := by
  obtain ⟨r0, he, rfl⟩ := except_map_ok _ _ _ hok
  intro v hv hnan
  rw [resultElems_clip] at hv
  obtain ⟨w, hw, rfl⟩ := List.mem_map.mp hv
  exact npClip_crossed w minv maxv hcross hnan

/-- C10 witness: min = 5 > max = 0, d-prime computes to 1 and the
returned value is max_value = 0. -/
theorem dprime_crossed_bounds_witness :
    rltb (RVal.val 0) (.val 5) = true ∧
    dprime phi0 cms0 [RVal.val 2, .val 6] [RVal.val 2, .val 2] "sample"
        (.val 0) (.val 5) = .ok (.scalar (.val 0)) ∧
    (RVal.val 0 : RVal) = .val 0 := by
  have hcross : rltb (RVal.val 0) (.val 5) = true := by norm_num [rltb]
  have hm1 : mean [(2:ℝ), 6] = 4 := by norm_num [mean]
  have hv1 : svar [(2:ℝ), 6] = 8 := by norm_num [svar, hm1]
  have hm2 : mean [(2:ℝ), 2] = 2 := by norm_num [mean]
  have hv2 : svar [(2:ℝ), 2] = 0 := by norm_num [svar, hm2]
  have hs : Real.sqrt ((8 + 0) / 2) = 2 := by
    rw [show ((8:ℝ) + 0) / 2 = 2 ^ 2 by norm_num, Real.sqrt_sq (by norm_num)]
  have hok : dprime phi0 cms0 [RVal.val 2, .val 6] [RVal.val 2, .val 2] "sample"
      (.val 0) (.val 5) = .ok (.scalar (.val 0)) := by
    unfold dprime
    rw [dprimeRaw_sample, sampleDprime_ok [RVal.val 2, .val 6] [RVal.val 2, .val 2]
      rfl rfl (by decide) (by decide),
      show finiteParts [RVal.val 2, .val 6] = [(2:ℝ), 6] from rfl,
      show finiteParts [RVal.val 2, .val 2] = [(2:ℝ), 2] from rfl,
      hm1, hv1, hm2, hv2, hs]
    norm_num [Except.map, clipResult, rdiv, npClip, rltb]
  exact ⟨hcross, hok, dprime_crossed_bounds phi0 cms0 _ _ _ _ _ _ hcross hok
    (.val 0) (by simp [resultElems]) rfl⟩

end Bangmetric
